import Mathlib

/-!
# Verification of the Feather main-window update-check flow

A shallow embedding of the update-verification flow of Feather's
`MainWindow` (`onUpdatesAvailable`, `onSignedHashesReceived`,
`onCheckUpdatesComplete`, `onShowUpdateCheck`), together with the
status-bar balance display (`onBalanceUpdated`) and the
recently-opened-wallets bookkeeping (`addToRecentlyOpened`).

Qt string formatting (`QString::arg`) is embedded as string
concatenation; `QByteArray::toHex` as a lowercase hex encoder over a
byte list; the config store and the file system are passed in
explicitly.  External collaborators whose sources are not part of the
excerpt (`SemanticVersion`, `Updater::verifyParseSignedHashes`, the
`constants::websiteUrl` value) are modelled from the specification and
are marked as such in their doc comments.
-/

namespace Feather

/-! ## Semantic versions -/

/-- Modelled from the spec: `utils/SemanticVersion.h` is not part of the
excerpt.  A semantic version is major.minor.patch plus an optional
pre-release tag ("beta" segments compare lexically after the numeric
fields). -/
structure SemanticVersion where
  major : Nat
  minor : Nat
  patch : Nat
  preRelease : Option String
deriving DecidableEq, Repr

/-- Lexicographic comparison of character lists by code point. -/
def charsLt : List Char → List Char → Bool
  | [], [] => false
  | [], _ :: _ => true
  | _ :: _, [] => false
  | c :: cs, d :: ds =>
    if c.toNat < d.toNat then true
    else if d.toNat < c.toNat then false
    else charsLt cs ds

/-- Lexical comparison of strings, used for pre-release tags. -/
def strLt (s t : String) : Bool :=
  charsLt s.data t.data

/-- Modelled from the spec: ordering of optional pre-release tags.  A
version without a pre-release tag is newer than the same numeric
version with one; two pre-release tags compare lexically. -/
def preLt : Option String → Option String → Bool
  | none, none => false
  | none, some _ => false
  | some _, none => true
  | some s, some t => strLt s t

/-- Modelled from the spec: strict semantic-version ordering,
lexicographic on (major, minor, patch) with the pre-release tag
compared after the numeric fields. -/
def SemanticVersion.ltB (a b : SemanticVersion) : Bool :=
  if a.major < b.major then true
  else if b.major < a.major then false
  else if a.minor < b.minor then true
  else if b.minor < a.minor then false
  else if a.patch < b.patch then true
  else if b.patch < a.patch then false
  else preLt a.preRelease b.preRelease

/-- `a <= b` on semantic versions, as used by
`onUpdatesAvailable` (`SemanticVersion::fromString(newVersion) <= featherVersion`). -/
def SemanticVersion.leB (a b : SemanticVersion) : Bool :=
  !(SemanticVersion.ltB b a)

/-- `isNewer a b`: version `a` is strictly newer than version `b`. -/
def isNewer (a b : SemanticVersion) : Bool :=
  SemanticVersion.ltB b a

/-- Split a character list at every occurrence of `sep`. -/
def splitOnChar (sep : Char) : List Char → List (List Char)
  | [] => [[]]
  | c :: cs =>
    let rest := splitOnChar sep cs
    if c = sep then [] :: rest
    else match rest with
      | [] => [[c]]
      | g :: gs => (c :: g) :: gs

/-- Rejoin character-list segments with `sep` between them. -/
def joinWithChar (sep : Char) : List (List Char) → List Char
  | [] => []
  | [g] => g
  | g :: gs => g ++ sep :: joinWithChar sep gs

/-- The value of a decimal digit character, `none` otherwise. -/
def digitVal? (c : Char) : Option Nat :=
  if 48 ≤ c.toNat ∧ c.toNat ≤ 57 then some (c.toNat - 48) else none

/-- Accumulate decimal digits into a number; any non-digit fails. -/
def digitsToNatAux : List Char → Nat → Option Nat
  | [], acc => some acc
  | c :: cs, acc =>
    match digitVal? c with
    | some d => digitsToNatAux cs (acc * 10 + d)
    | none => none

/-- Parse a nonempty all-digit character list as a number. -/
def parseNat? : List Char → Option Nat
  | [] => none
  | cs => digitsToNatAux cs 0

/-- Modelled from the spec: parsing of a version string
`major.minor.patch[-tag]`.  An unparseable string yields `none`, which
the flow treats as "no update" (fail closed). -/
def SemanticVersion.fromString (s : String) : Option SemanticVersion :=
  match splitOnChar (Char.ofNat 45) s.data with
  | [] => none
  | core :: rest =>
    let tag := match rest with
      | [] => none
      | _ => some (String.mk (joinWithChar (Char.ofNat 45) rest))
    match (splitOnChar (Char.ofNat 46) core).map parseNat? with
    | [some a, some b, some c] => some ⟨a, b, c, tag⟩
    | _ => none

/-! ## Signed hash manifests and their verification -/

/-- An armored signed hash manifest, abstracted to the facts the
verifier extracts from the raw bytes: whether its signature validates
against the trusted signer keyring, the signer identity, and the
filename-to-hash entries it claims. -/
structure SignedHashManifest where
  sigValid : Bool
  signer : String
  entries : List (String × List Nat)
deriving DecidableEq, Repr

/-- Modelled from the spec: `Updater::verifyParseSignedHashes` is not
part of the excerpt.  It verifies the manifest signature against the
trusted signer keyring and extracts the hash entry whose key equals
the expected binary filename, reporting the signer identity; any
failure (bad signature, missing entry, malformed manifest) throws,
embedded here as `none`. -/
def verifyParseSignedHashes (m : SignedHashManifest) (binaryFilename : String) :
    Option (List Nat × String) :=
  if m.sigValid then
    match m.entries.lookup binaryFilename with
    | some bytes => some (bytes, m.signer)
    | none => none
  else none

/-- One lowercase hex digit. -/
def hexChar (n : Nat) : Char :=
  if n < 10 then Char.ofNat (48 + n) else Char.ofNat (87 + n)

/-- Lowercase hex encoding of one byte, as `QByteArray::toHex`. -/
def byteToHex (b : Nat) : String :=
  String.mk [hexChar (b / 16 % 16), hexChar (b % 16)]

/-- Lowercase hex encoding of a byte list, as `QByteArray::toHex`. -/
def toHex (bs : List Nat) : String :=
  String.join (bs.map byteToHex)

/-! ## The update-check flow -/

/-- The tuple handed to the notification boundary on success:
version, binary filename, hex-encoded hash, signer identity. -/
structure VerifiedUpdate where
  version : String
  binaryFilename : String
  hash : String
  signer : String
deriving DecidableEq, Repr

/-- The completed network reply delivered to `onSignedHashesReceived`:
the transport error flag (`reply->error() != QNetworkReply::NoError`)
and the body (`reply->readAll()`), abstracted to the manifest it
armors. -/
structure NetworkReply where
  error : Bool
  body : SignedHashManifest
deriving DecidableEq, Repr

/-- Outcome of one run of `onSignedHashesReceived`. -/
inductive HashesOutcome where
  | fetchError
  | verifyFailed
  | success (u : VerifiedUpdate)
deriving DecidableEq, Repr

/-- The update surfaced to the notification path, if any. -/
def HashesOutcome.updateInfo : HashesOutcome → Option VerifiedUpdate
  | .success u => some u
  | _ => none

/-- `QString("feather-%1-%2.zip").arg(version, platformTag)`. -/
def binaryFilenameFor (version platformTag : String) : String :=
  "feather-" ++ version ++ "-" ++ platformTag ++ ".zip"

/-- `MainWindow::onSignedHashesReceived`.  On transport error: log and
abort before any verification.  Otherwise run the verifier on the
body; an exception or an empty hash aborts, and success hands
`(version, binaryFilename, toHex hash, signer)` to
`onCheckUpdatesComplete`.  The verifier is a parameter; the program
instantiates it with `verifyParseSignedHashes`. -/
def onSignedHashesReceived
    (verify : SignedHashManifest → String → Option (List Nat × String))
    (reply : NetworkReply) (platformTag version : String) : HashesOutcome :=
  if reply.error then .fetchError
  else
    let binaryFilename := binaryFilenameFor version platformTag
    match verify reply.body binaryFilename with
    | none => .verifyFailed
    | some (signedHash, signer) =>
      if signedHash.isEmpty then .verifyFailed
      else .success ⟨version, binaryFilename, toHex signedHash, signer⟩

/-- The step `onUpdatesAvailable` ends in: one of the three silent
aborts, or the single network fetch of the signed hash manifest. -/
inductive UpdateStep where
  | abortUnsupportedPlatform
  | abortNoPlatformData
  | abortNotNewer
  | fetch (hashesUrl platformTag version : String)
deriving DecidableEq, Repr

/-- Number of outbound network calls a step performs. -/
def UpdateStep.networkCalls : UpdateStep → Nat
  | .fetch _ _ _ => 1
  | _ => 0

/-- `MainWindow::onUpdatesAvailable`.  `websiteUrl` stands for
`constants::websiteUrl` (not in the excerpt), `featherVersionStr` for
`FEATHER_VERSION`, and `updates` for the feed's per-platform map
`updates["platform"]`, each entry carrying its `version` string.
Unparseable versions are treated as "no update" (fail closed, per the
spec). -/
def onUpdatesAvailable (websiteUrl featherVersionStr platformTag : String)
    (updates : List (String × String)) : UpdateStep :=
  if platformTag = "" then .abortUnsupportedPlatform
  else
    match updates.lookup platformTag with
    | none => .abortNoPlatformData
    | some newVersion =>
      let proceed :=
        match SemanticVersion.fromString newVersion,
              SemanticVersion.fromString featherVersionStr with
        | some cand, some cur => !(SemanticVersion.leB cand cur)
        | _, _ => false
      if proceed then
        .fetch (websiteUrl ++ "/files/releases/hashes-" ++ newVersion ++ "-plain.txt")
          platformTag newVersion
      else .abortNotNewer

/-- Parameters of the `UpdateDialog` opened by `onShowUpdateCheck`. -/
structure UpdateDialogParams where
  version : String
  downloadUrl : String
  hash : String
  signer : String
  platformTag : String
deriving DecidableEq, Repr

/-- `MainWindow::onShowUpdateCheck`: builds the download URL
`https://featherwallet.org/files/releases/<platformTag>/<binaryFilename>`
and opens the update dialog. -/
def onShowUpdateCheck (platformTag version binaryFilename hash signer : String) :
    UpdateDialogParams :=
  let downloadUrl :=
    "https://featherwallet.org/files/releases/" ++ platformTag ++ "/" ++ binaryFilename
  ⟨version, downloadUrl, hash, signer, platformTag⟩

/-! ## The status-bar update button -/

/-- The status-bar update-available button: its displayed text, tool
tip, visibility, and the list of click handlers currently connected;
each handler captures the `(version, binaryFilename, hash, signer)`
tuple it will open the update dialog with. -/
structure StatusUpdateButton where
  text : String
  toolTip : String
  visible : Bool
  handlers : List VerifiedUpdate
deriving DecidableEq, Repr

/-- `MainWindow::onCheckUpdatesComplete`: sets the button text (with
"beta" displayed as "Beta"), shows the button, disconnects every
previously connected handler, and connects one handler capturing the
new update. -/
def onCheckUpdatesComplete (btn : StatusUpdateButton)
    (version binaryFilename hash signer : String) : StatusUpdateButton :=
  let versionDisplay := version.replace "beta" "Beta"
  let updateText := "Update to Feather " ++ versionDisplay ++ " is available"
  let btn := { btn with
    text := updateText
    toolTip := "Click to Download update."
    visible := true }
  let btn := { btn with handlers := [] }
  { btn with handlers := btn.handlers ++ [⟨version, binaryFilename, hash, signer⟩] }

/-! ## The status-bar balance display -/

namespace Config

/-- `Config::totalBalance` balance-display setting. -/
def totalBalance : Nat := 0

/-- `Config::spendable` balance-display setting. -/
def spendable : Nat := 1

/-- `Config::spendablePlusUnconfirmed` balance-display setting. -/
def spendablePlusUnconfirmed : Nat := 2

end Config

/-- The configuration values `onBalanceUpdated` reads:
`Config::hideBalance`, `Config::balanceDisplay`, `Config::amountPrecision`. -/
structure BalanceConfig where
  hideBalance : Bool
  balanceDisplay : Nat
  amountPrecision : Nat
deriving DecidableEq, Repr

/-- `MainWindow::onBalanceUpdated`: formats the status-bar balance
label text and decides the balance ticker widget's hidden state.
`displayAmount` stands for `WalletManager::displayAmount` (not in the
excerpt), taking the atomic amount and the decimal precision.
Returns (label text, ticker hidden). -/
def onBalanceUpdated (cfg : BalanceConfig) (displayAmount : Nat → Nat → String)
    (balance spendable : Nat) : String × Bool :=
  let hide := cfg.hideBalance
  let displaySetting := cfg.balanceDisplay
  let decimals := cfg.amountPrecision
  let balanceStr := "Balance: "
  let balanceStr :=
    if hide then balanceStr ++ "HIDDEN"
    else if displaySetting = Config.totalBalance then
      balanceStr ++ displayAmount balance decimals ++ " XMR"
    else if displaySetting = Config.spendable ∨
            displaySetting = Config.spendablePlusUnconfirmed then
      let s := balanceStr ++ displayAmount spendable decimals ++ " XMR"
      if displaySetting = Config.spendablePlusUnconfirmed ∧ balance > spendable then
        s ++ " (+" ++ displayAmount (balance - spendable) decimals ++ " XMR unconfirmed)"
      else s
    else balanceStr
  (balanceStr, hide)

/-! ## Recently-opened wallets -/

/-- The collection loop of `addToRecentlyOpened`: walk the candidate
list, keep entries whose file exists, and stop once 5 have been
kept. -/
def collectRecent (fileExists : String → Bool) : List String → Nat → List String
  | [], _ => []
  | f :: rest, count =>
    if fileExists f then
      if count + 1 ≥ 5 then [f]
      else f :: collectRecent fileExists rest (count + 1)
    else
      if count ≥ 5 then []
      else collectRecent fileExists rest count

/-- `MainWindow::addToRecentlyOpened`: remove the first occurrence of
`keysFile` from the stored list if present, prepend it, then keep the
first 5 entries whose file exists, and store the result.
`fileExists` stands for `Utils::fileExists`. -/
def addToRecentlyOpened (fileExists : String → Bool)
    (recent : List String) (keysFile : String) : List String :=
  let recent := if recent.contains keysFile then recent.erase keysFile else recent
  let recent := keysFile :: recent
  collectRecent fileExists recent 0

/-! ## Order properties of the version comparison -/

theorem charsLt_asymm (l₁ l₂ : List Char) (h : charsLt l₁ l₂ = true) :
    charsLt l₂ l₁ = false := by
  induction l₁ generalizing l₂ with
  | nil =>
    cases l₂ with
    | nil => simp [charsLt] at h
    | cons d ds => simp [charsLt]
  | cons c cs ih =>
    cases l₂ with
    | nil => simp [charsLt] at h
    | cons d ds =>
      simp only [charsLt] at h ⊢
      by_cases h1 : c.toNat < d.toNat
      · simp [h1, Nat.lt_asymm h1]
      · by_cases h2 : d.toNat < c.toNat
        · simp [h1, h2] at h
        · simp only [h1, h2, if_false] at h ⊢
          exact ih ds h

theorem charsLt_irrefl (l : List Char) : charsLt l l = false := by
  induction l with
  | nil => rfl
  | cons c cs ih => simp [charsLt, ih]

theorem preLt_asymm (x y : Option String) (h : preLt x y = true) :
    preLt y x = false := by
  cases x with
  | none => cases y <;> simp [preLt] at h ⊢
  | some s =>
    cases y with
    | none => simp [preLt]
    | some t =>
      simp only [preLt, strLt] at h ⊢
      exact charsLt_asymm _ _ h

theorem preLt_irrefl (x : Option String) : preLt x x = false := by
  cases x with
  | none => rfl
  | some s => simpa [preLt, strLt] using charsLt_irrefl s.data

theorem SemanticVersion.ltB_asymm (a b : SemanticVersion)
    (h : SemanticVersion.ltB a b = true) : SemanticVersion.ltB b a = false := by
  unfold SemanticVersion.ltB at h ⊢
  by_cases h1 : a.major < b.major
  · simp [h1, Nat.lt_asymm h1]
  · by_cases h2 : b.major < a.major
    · simp [h1, h2] at h
    · simp only [h1, h2, if_false] at h ⊢
      by_cases h3 : a.minor < b.minor
      · simp [h3, Nat.lt_asymm h3]
      · by_cases h4 : b.minor < a.minor
        · simp [h3, h4] at h
        · simp only [h3, h4, if_false] at h ⊢
          by_cases h5 : a.patch < b.patch
          · simp [h5, Nat.lt_asymm h5]
          · by_cases h6 : b.patch < a.patch
            · simp [h5, h6] at h
            · simp only [h5, h6, if_false] at h ⊢
              exact preLt_asymm _ _ h

theorem SemanticVersion.ltB_irrefl (a : SemanticVersion) :
    SemanticVersion.ltB a a = false := by
  unfold SemanticVersion.ltB
  simp [Nat.lt_irrefl, preLt_irrefl]

end Feather

namespace Feather

/-! ## Claim theorems -/

/-- **C3**: `isNewer` is a strict order on semantic versions —
whenever `a` is greater per the defined ordering, `isNewer a b` is
true and `isNewer b a` is false, and equal versions yield false both
ways — and whenever the announced candidate compares less than or
equal to the running version, or either version is unparseable (fail
closed), the update check aborts with no fetch. -/
theorem isNewer_strict_order_and_fail_closed :
    (∀ a b : SemanticVersion, SemanticVersion.ltB b a = true →
      isNewer a b = true ∧ isNewer b a = false) ∧
    (∀ a b : SemanticVersion, a = b →
      isNewer a b = false ∧ isNewer b a = false) ∧
    (∀ (websiteUrl featherVersionStr platformTag : String)
      (updates : List (String × String)) (newVersion : String),
      updates.lookup platformTag = some newVersion →
      ((∃ cand cur, SemanticVersion.fromString newVersion = some cand ∧
          SemanticVersion.fromString featherVersionStr = some cur ∧
          SemanticVersion.leB cand cur = true) ∨
        SemanticVersion.fromString newVersion = none ∨
        SemanticVersion.fromString featherVersionStr = none) →
      (onUpdatesAvailable websiteUrl featherVersionStr platformTag updates).networkCalls = 0) := by
  refine ⟨?_, ?_, ?_⟩
  · intro a b h
    exact ⟨h, SemanticVersion.ltB_asymm b a h⟩
  · intro a b h
    subst h
    exact ⟨SemanticVersion.ltB_irrefl a, SemanticVersion.ltB_irrefl a⟩
  · intro websiteUrl featherVersionStr platformTag updates newVersion hlookup hdisj
    unfold onUpdatesAvailable
    by_cases htag : platformTag = ""
    · simp [htag, UpdateStep.networkCalls]
    · simp only [htag, if_false, hlookup]
      rcases hdisj with ⟨cand, cur, hc, hcur, hle⟩ | hnone | hcurnone
      · simp [hc, hcur, hle, UpdateStep.networkCalls]
      · simp [hnone, UpdateStep.networkCalls]
      · cases hnv : SemanticVersion.fromString newVersion <;>
          simp [hnv, hcurnone, UpdateStep.networkCalls]

/-- Witness for **C3** at concrete versions: `1.3.0-beta` is newer
than `1.2.0` and not conversely, and a feed advertising `1.1.0` to a
running `1.2.0` causes zero network calls. -/
theorem isNewer_strict_order_and_fail_closed_witness :
    isNewer ⟨1, 3, 0, some "beta"⟩ ⟨1, 2, 0, none⟩ = true ∧
    isNewer ⟨1, 2, 0, none⟩ ⟨1, 3, 0, some "beta"⟩ = false ∧
    (onUpdatesAvailable "https://featherwallet.org" "1.2.0" "linux"
      [("linux", "1.1.0")]).networkCalls = 0 := by
  refine ⟨?_, ?_, ?_⟩
  · exact (isNewer_strict_order_and_fail_closed.1 ⟨1, 3, 0, some "beta"⟩ ⟨1, 2, 0, none⟩
      (by decide)).1
  · exact (isNewer_strict_order_and_fail_closed.1 ⟨1, 3, 0, some "beta"⟩ ⟨1, 2, 0, none⟩
      (by decide)).2
  · exact isNewer_strict_order_and_fail_closed.2.2 "https://featherwallet.org" "1.2.0"
      "linux" [("linux", "1.1.0")] "1.1.0" (by decide)
      (Or.inl ⟨⟨1, 1, 0, none⟩, ⟨1, 2, 0, none⟩, by decide, by decide, by decide⟩)

/-- **C4**: with an empty platform tag (unsupported platform), or a
feed payload with no entry for the current platform tag, the update
check aborts at the corresponding silent-abort step and performs zero
network calls. -/
theorem abort_on_unsupported_or_missing_platform :
    (∀ (websiteUrl featherVersionStr : String) (updates : List (String × String)),
      onUpdatesAvailable websiteUrl featherVersionStr "" updates =
        UpdateStep.abortUnsupportedPlatform ∧
      (onUpdatesAvailable websiteUrl featherVersionStr "" updates).networkCalls = 0) ∧
    (∀ (websiteUrl featherVersionStr platformTag : String)
      (updates : List (String × String)),
      platformTag ≠ "" →
      updates.lookup platformTag = none →
      onUpdatesAvailable websiteUrl featherVersionStr platformTag updates =
        UpdateStep.abortNoPlatformData ∧
      (onUpdatesAvailable websiteUrl featherVersionStr platformTag updates).networkCalls = 0) := by
  constructor
  · intro websiteUrl featherVersionStr updates
    constructor <;> simp [onUpdatesAvailable, UpdateStep.networkCalls]
  · intro websiteUrl featherVersionStr platformTag updates htag hlookup
    constructor <;> simp [onUpdatesAvailable, htag, hlookup, UpdateStep.networkCalls]

/-- Witness for **C4**: a feed carrying only a `mac` entry, checked on
`linux`, is a silent abort with zero network calls. -/
theorem abort_on_unsupported_or_missing_platform_witness :
    (onUpdatesAvailable "https://featherwallet.org" "1.2.0" ""
      [("linux", "1.3.0")] = UpdateStep.abortUnsupportedPlatform) ∧
    (onUpdatesAvailable "https://featherwallet.org" "1.2.0" "linux"
      [("mac", "1.3.0")] = UpdateStep.abortNoPlatformData) ∧
    (onUpdatesAvailable "https://featherwallet.org" "1.2.0" "linux"
      [("mac", "1.3.0")]).networkCalls = 0 := by
  refine ⟨?_, ?_, ?_⟩
  · exact (abort_on_unsupported_or_missing_platform.1 "https://featherwallet.org" "1.2.0"
      [("linux", "1.3.0")]).1
  · exact (abort_on_unsupported_or_missing_platform.2 "https://featherwallet.org" "1.2.0"
      "linux" [("mac", "1.3.0")] (by decide) (by decide)).1
  · exact (abort_on_unsupported_or_missing_platform.2 "https://featherwallet.org" "1.2.0"
      "linux" [("mac", "1.3.0")] (by decide) (by decide)).2

/-- **C6**: whenever the announced version parses and is newer than
the running version on a supported platform, the flow performs the
single GET of `<host>/files/releases/hashes-<version>-plain.txt`,
derived only from the base host and the announced version. -/
theorem hashes_url_deterministic :
    ∀ (websiteUrl featherVersionStr platformTag : String)
      (updates : List (String × String)) (newVersion : String)
      (cand cur : SemanticVersion),
      platformTag ≠ "" →
      updates.lookup platformTag = some newVersion →
      SemanticVersion.fromString newVersion = some cand →
      SemanticVersion.fromString featherVersionStr = some cur →
      isNewer cand cur = true →
      onUpdatesAvailable websiteUrl featherVersionStr platformTag updates =
        UpdateStep.fetch
          (websiteUrl ++ "/files/releases/hashes-" ++ newVersion ++ "-plain.txt")
          platformTag newVersion := by
  intro websiteUrl featherVersionStr platformTag updates newVersion cand cur
    htag hlookup hcand hcur hnew
  unfold onUpdatesAvailable
  simp only [htag, if_false, hlookup, hcand, hcur]
  simp [SemanticVersion.leB, isNewer] at hnew ⊢
  simp [hnew]

/-- Witness for **C6**: running `1.2.0` on `linux` with the feed
advertising `1.3.0-beta` fetches `hashes-1.3.0-beta-plain.txt`. -/
theorem hashes_url_deterministic_witness :
    onUpdatesAvailable "https://featherwallet.org" "1.2.0" "linux"
      [("linux", "1.3.0-beta")] =
      UpdateStep.fetch "https://featherwallet.org/files/releases/hashes-1.3.0-beta-plain.txt"
        "linux" "1.3.0-beta" := by
  have h := hashes_url_deterministic "https://featherwallet.org" "1.2.0" "linux"
    [("linux", "1.3.0-beta")] "1.3.0-beta" ⟨1, 3, 0, some "beta"⟩ ⟨1, 2, 0, none⟩
    (by decide) (by decide) (by decide) (by decide) (by decide)
  simpa using h

/-- **C1**: a `VerifiedUpdate` reaches the notification boundary only
when the reply carried no transport error, the manifest's signature
validates against the trusted keyring, and the manifest holds a
(nonempty) hash entry whose key equals the expected binary filename —
and whenever the verifier throws or fails, no `VerifiedUpdate` is
produced. -/
theorem verifiedUpdate_only_from_verified_manifest :
    (∀ (reply : NetworkReply) (platformTag version : String) (u : VerifiedUpdate),
      (onSignedHashesReceived verifyParseSignedHashes reply platformTag version).updateInfo
        = some u →
      reply.error = false ∧
      reply.body.sigValid = true ∧
      ∃ bytes, reply.body.entries.lookup (binaryFilenameFor version platformTag)
          = some bytes ∧
        bytes ≠ [] ∧
        u = ⟨version, binaryFilenameFor version platformTag, toHex bytes,
          reply.body.signer⟩) ∧
    (∀ (reply : NetworkReply) (platformTag version : String),
      verifyParseSignedHashes reply.body (binaryFilenameFor version platformTag) = none →
      (onSignedHashesReceived verifyParseSignedHashes reply platformTag version).updateInfo
        = none) := by
  constructor
  · intro reply platformTag version u h
    cases he : reply.error with
    | true => simp [onSignedHashesReceived, he, HashesOutcome.updateInfo] at h
    | false =>
      refine ⟨rfl, ?_⟩
      simp only [onSignedHashesReceived, he, Bool.false_eq_true, if_false] at h
      cases hv : reply.body.sigValid with
      | false => simp [verifyParseSignedHashes, hv, HashesOutcome.updateInfo] at h
      | true =>
        refine ⟨rfl, ?_⟩
        cases hl : reply.body.entries.lookup (binaryFilenameFor version platformTag) with
        | none => simp [verifyParseSignedHashes, hv, hl, HashesOutcome.updateInfo] at h
        | some bytes =>
          cases hb : bytes.isEmpty with
          | true =>
            simp [verifyParseSignedHashes, hv, hl, hb, HashesOutcome.updateInfo] at h
          | false =>
            refine ⟨bytes, rfl, ?_, ?_⟩
            · intro hnil
              rw [hnil] at hb
              simp at hb
            · simp [verifyParseSignedHashes, hv, hl, hb, HashesOutcome.updateInfo] at h
              exact h.symm
  · intro reply platformTag version hv
    cases he : reply.error with
    | true => simp [onSignedHashesReceived, he, HashesOutcome.updateInfo]
    | false => simp [onSignedHashesReceived, he, hv, HashesOutcome.updateInfo]

/-- Witness for **C1**: a successful concrete run satisfies the
verification conditions the theorem extracts, and a run over an
unsigned manifest produces no update. -/
theorem verifiedUpdate_only_from_verified_manifest_witness :
    ((⟨false, ⟨true, "tobtoht", [("feather-1.3.0-beta-linux.zip", [222, 173])]⟩⟩ :
        NetworkReply).body.sigValid = true) ∧
    ((onSignedHashesReceived verifyParseSignedHashes
        ⟨false, ⟨false, "tobtoht", [("feather-1.3.0-beta-linux.zip", [222, 173])]⟩⟩
        "linux" "1.3.0-beta").updateInfo = none) := by
  constructor
  · exact (verifiedUpdate_only_from_verified_manifest.1
      ⟨false, ⟨true, "tobtoht", [("feather-1.3.0-beta-linux.zip", [222, 173])]⟩⟩
      "linux" "1.3.0-beta"
      ⟨"1.3.0-beta", "feather-1.3.0-beta-linux.zip", toHex [222, 173], "tobtoht"⟩
      (by decide)).2.1
  · exact verifiedUpdate_only_from_verified_manifest.2
      ⟨false, ⟨false, "tobtoht", [("feather-1.3.0-beta-linux.zip", [222, 173])]⟩⟩
      "linux" "1.3.0-beta" (by decide)

/-- **C2**: a validly signed manifest containing a (nonempty) hash
entry for the expected binary filename makes one run of
`onSignedHashesReceived` produce exactly one `VerifiedUpdate`, whose
hash is the hex encoding of the entry's value and whose signer is the
identity extracted during verification. -/
theorem verifiedUpdate_of_valid_manifest :
    ∀ (body : SignedHashManifest) (platformTag version : String) (bytes : List Nat),
      body.sigValid = true →
      body.entries.lookup (binaryFilenameFor version platformTag) = some bytes →
      bytes ≠ [] →
      (onSignedHashesReceived verifyParseSignedHashes
          ⟨false, body⟩ platformTag version).updateInfo =
        some ⟨version, binaryFilenameFor version platformTag, toHex bytes, body.signer⟩ := by
  intro body platformTag version bytes hsig hl hne
  have hb : bytes.isEmpty = false := by
    cases bytes with
    | nil => exact absurd rfl hne
    | cons a l => rfl
  simp [onSignedHashesReceived, verifyParseSignedHashes, hsig, hl, hb,
    HashesOutcome.updateInfo]

/-- Witness for **C2**: a valid manifest signed by `tobtoht` mapping
the expected filename to bytes `de ad` yields the update with hex
hash `dead`. -/
theorem verifiedUpdate_of_valid_manifest_witness :
    ((onSignedHashesReceived verifyParseSignedHashes
        ⟨false, ⟨true, "tobtoht", [("feather-1.3.0-beta-linux.zip", [222, 173])]⟩⟩
        "linux" "1.3.0-beta").updateInfo =
      some ⟨"1.3.0-beta", "feather-1.3.0-beta-linux.zip", toHex [222, 173], "tobtoht"⟩) ∧
    toHex [222, 173] = "dead" := by
  constructor
  · exact verifiedUpdate_of_valid_manifest
      ⟨true, "tobtoht", [("feather-1.3.0-beta-linux.zip", [222, 173])]⟩
      "linux" "1.3.0-beta" [222, 173] (by decide) (by decide) (by decide)
  · decide

/-- **C5**: a transport error makes `onSignedHashesReceived` abort at
the fetch-error step: no `VerifiedUpdate` is produced, and the outcome
does not depend on the verifier at all (no verification is
attempted). -/
theorem fetch_error_aborts_before_verification :
    ∀ (verifyA verifyB : SignedHashManifest → String → Option (List Nat × String))
      (reply : NetworkReply) (platformTag version : String),
      reply.error = true →
      onSignedHashesReceived verifyA reply platformTag version =
        HashesOutcome.fetchError ∧
      (onSignedHashesReceived verifyA reply platformTag version).updateInfo = none ∧
      onSignedHashesReceived verifyA reply platformTag version =
        onSignedHashesReceived verifyB reply platformTag version := by
  intro verifyA verifyB reply platformTag version he
  refine ⟨?_, ?_, ?_⟩ <;>
    simp [onSignedHashesReceived, he, HashesOutcome.updateInfo]

/-- Witness for **C5**: a failed fetch of a manifest that would
otherwise verify still yields the fetch-error abort and no update. -/
theorem fetch_error_aborts_before_verification_witness :
    (onSignedHashesReceived (fun _ _ => some ([1], "rogue"))
      ⟨true, ⟨true, "tobtoht", []⟩⟩ "linux" "1.3.0" = HashesOutcome.fetchError) ∧
    ((onSignedHashesReceived (fun _ _ => none)
      ⟨true, ⟨true, "tobtoht", []⟩⟩ "linux" "1.3.0").updateInfo = none) := by
  have h := fetch_error_aborts_before_verification (fun _ _ => some ([1], "rogue"))
    (fun _ _ => none) ⟨true, ⟨true, "tobtoht", []⟩⟩ "linux" "1.3.0" rfl
  refine ⟨h.1, ?_⟩
  rw [← h.2.2]
  exact h.2.1

/-- **C7**: the expected binary filename is
`feather-<version>-<platform>.zip`, the notification boundary receives
a download URL `<host>/files/releases/<platform>/<binaryFilename>`,
and in the concrete scenario — running `1.2.0`, feed advertising
`1.3.0-beta` for `linux` — exactly one fetch of
`hashes-1.3.0-beta-plain.txt` occurs and a validly signed manifest
containing `feather-1.3.0-beta-linux.zip` yields the update with that
hash and a download URL ending in
`/linux/feather-1.3.0-beta-linux.zip`. -/
theorem binary_filename_and_download_url :
    (∀ platformTag version binaryFilename hash signer : String,
      (onShowUpdateCheck platformTag version binaryFilename hash signer).downloadUrl =
        "https://featherwallet.org/files/releases/" ++ platformTag ++ "/" ++
          binaryFilename) ∧
    (∀ version platformTag : String,
      binaryFilenameFor version platformTag =
        "feather-" ++ version ++ "-" ++ platformTag ++ ".zip") ∧
    (onUpdatesAvailable "https://featherwallet.org" "1.2.0" "linux"
        [("linux", "1.3.0-beta")] =
      UpdateStep.fetch
        "https://featherwallet.org/files/releases/hashes-1.3.0-beta-plain.txt"
        "linux" "1.3.0-beta") ∧
    ((onUpdatesAvailable "https://featherwallet.org" "1.2.0" "linux"
        [("linux", "1.3.0-beta")]).networkCalls = 1) ∧
    ((onSignedHashesReceived verifyParseSignedHashes
        ⟨false, ⟨true, "tobtoht", [("feather-1.3.0-beta-linux.zip", [222, 173])]⟩⟩
        "linux" "1.3.0-beta").updateInfo =
      some ⟨"1.3.0-beta", "feather-1.3.0-beta-linux.zip", toHex [222, 173],
        "tobtoht"⟩) ∧
    (toHex [222, 173] = "dead") ∧
    (∃ urlBase,
      (onShowUpdateCheck "linux" "1.3.0-beta" "feather-1.3.0-beta-linux.zip"
          (toHex [222, 173]) "tobtoht").downloadUrl =
        urlBase ++ "/linux/feather-1.3.0-beta-linux.zip") := by
  refine ⟨fun _ _ _ _ _ => rfl, fun _ _ => rfl, by decide, by decide, by decide,
    by decide, ⟨"https://featherwallet.org/files/releases", by decide⟩⟩

/-- **C8**: `onCheckUpdatesComplete` disconnects every previously
connected handler before connecting the one for the new update, so the
status-bar button always has exactly one active handler — the one
capturing the most recently verified update — and successive
notifications never accumulate stale handlers. -/
theorem update_button_single_handler :
    ∀ (btn : StatusUpdateButton) (v₁ b₁ h₁ s₁ v₂ b₂ h₂ s₂ : String),
      (onCheckUpdatesComplete btn v₁ b₁ h₁ s₁).handlers = [⟨v₁, b₁, h₁, s₁⟩] ∧
      (onCheckUpdatesComplete (onCheckUpdatesComplete btn v₁ b₁ h₁ s₁)
        v₂ b₂ h₂ s₂).handlers = [⟨v₂, b₂, h₂, s₂⟩] ∧
      (onCheckUpdatesComplete btn v₁ b₁ h₁ s₁).visible = true := by
  intro btn v₁ b₁ h₁ s₁ v₂ b₂ h₂ s₂
  exact ⟨rfl, rfl, rfl⟩

/-- **C9**: with the hide-balance flag enabled, `onBalanceUpdated`
sets the label to the constant text `Balance: HIDDEN` and hides the
balance ticker, independently of the actual amounts. -/
theorem hidden_balance_independent_of_amounts :
    ∀ (cfg : BalanceConfig) (displayAmount : Nat → Nat → String) (b₁ s₁ b₂ s₂ : Nat),
      cfg.hideBalance = true →
      onBalanceUpdated cfg displayAmount b₁ s₁ = ("Balance: HIDDEN", true) ∧
      onBalanceUpdated cfg displayAmount b₁ s₁ =
        onBalanceUpdated cfg displayAmount b₂ s₂ := by
  intro cfg displayAmount b₁ s₁ b₂ s₂ hh
  have hone : ∀ b s : Nat, onBalanceUpdated cfg displayAmount b s =
      ("Balance: HIDDEN", true) := by
    intro b s
    simp only [onBalanceUpdated, hh, if_true]
    rfl
  rw [hone b₁ s₁, hone b₂ s₂]
  exact ⟨rfl, rfl⟩

/-- Witness for **C9**: two runs with different amounts under the
hide-balance flag produce the identical hidden label. -/
theorem hidden_balance_independent_of_amounts_witness :
    onBalanceUpdated ⟨true, 1, 4⟩ (fun a _ => toString a) 7 3 =
      ("Balance: HIDDEN", true) ∧
    onBalanceUpdated ⟨true, 1, 4⟩ (fun a _ => toString a) 7 3 =
      onBalanceUpdated ⟨true, 1, 4⟩ (fun a _ => toString a) 1000 999 :=
  hidden_balance_independent_of_amounts ⟨true, 1, 4⟩ (fun a _ => toString a)
    7 3 1000 999 rfl

/-- The collection loop keeps the first `5 - c` entries of the
filtered candidate list. -/
theorem collectRecent_eq (fileExists : String → Bool) :
    ∀ (l : List String) (c : Nat), c < 5 →
      collectRecent fileExists l c = (l.filter fileExists).take (5 - c) := by
  intro l
  induction l with
  | nil => intro c hc; simp [collectRecent]
  | cons f rest ih =>
    intro c hc
    cases hf : fileExists f with
    | true =>
      by_cases h5 : c + 1 ≥ 5
      · have hc4 : c = 4 := by omega
        subst hc4
        simp [collectRecent, hf, h5, List.filter_cons]
      · have heq : 5 - c = (5 - (c + 1)) + 1 := by omega
        simp only [collectRecent, hf, if_true, if_neg h5, List.filter_cons,
          ih (c + 1) (by omega), heq, List.take_succ_cons]
    | false =>
      have hnot : ¬c ≥ 5 := by omega
      simp [collectRecent, hf, hnot, List.filter_cons, ih c hc]

/-- **C10**: provided the stored list holds at most one occurrence of
the added path (as every list this flow itself stores does), after
`addToRecentlyOpened` the stored list has at most 5 entries, every
entry's file exists, the added path is not duplicated, and when the
added path's file exists it is the first entry. -/
theorem recently_opened_invariants :
    ∀ (fileExists : String → Bool) (recent : List String) (keysFile : String),
      recent.count keysFile ≤ 1 →
      (addToRecentlyOpened fileExists recent keysFile).length ≤ 5 ∧
      (∀ e ∈ addToRecentlyOpened fileExists recent keysFile, fileExists e = true) ∧
      (addToRecentlyOpened fileExists recent keysFile).count keysFile ≤ 1 ∧
      (fileExists keysFile = true →
        (addToRecentlyOpened fileExists recent keysFile).head? = some keysFile) := by
  intro fe recent k hcount
  have hdef : addToRecentlyOpened fe recent k =
      ((k :: (if recent.contains k then recent.erase k else recent)).filter fe).take 5 := by
    unfold addToRecentlyOpened
    exact collectRecent_eq fe _ 0 (by omega)
  have hcount' : (if recent.contains k then recent.erase k else recent).count k = 0 := by
    by_cases hc : recent.contains k
    · rw [if_pos hc, List.count_erase_self]
      omega
    · rw [if_neg hc]
      have hmem : k ∉ recent := by
        intro hmem
        exact hc (List.elem_iff.mpr hmem)
      simp [List.count_eq_zero, hmem]
  refine ⟨?_, ?_, ?_, ?_⟩
  · rw [hdef, List.length_take]
    exact Nat.min_le_left _ _
  · intro e he
    rw [hdef] at he
    exact List.of_mem_filter (List.mem_of_mem_take he)
  · rw [hdef]
    calc (((k :: (if recent.contains k then recent.erase k else recent)).filter fe).take
            5).count k
        ≤ ((k :: (if recent.contains k then recent.erase k else recent)).filter
            fe).count k := (List.take_sublist _ _).count_le _
      _ ≤ (k :: (if recent.contains k then recent.erase k else recent)).count k :=
          (List.filter_sublist _).count_le _
      _ = 1 := by rw [List.count_cons_self, hcount']
  · intro hk
    rw [hdef]
    simp [List.filter_cons, hk]

/-- Witness for **C10**: re-adding `w2` to a stored list `[w1, w2]`
of existing files puts it first with at most 5 entries. -/
theorem recently_opened_invariants_witness :
    (addToRecentlyOpened (fun _ => true) ["w1", "w2"] "w2").length ≤ 5 ∧
    (addToRecentlyOpened (fun _ => true) ["w1", "w2"] "w2").head? = some "w2" := by
  have h := recently_opened_invariants (fun _ => true) ["w1", "w2"] "w2" (by decide)
  exact ⟨h.1, h.2.2.2 rfl⟩

end Feather
